import Mathlib

/-!
Shallow embedding of the QtPass `ImitatePass` component
(src/imitatepass.cpp) and verification of its specified behaviour.

The embedding models every externally visible effect of the component:
external process launches (distinguishing the asynchronous, job-id
correlated `Executor::execute` path from the synchronous
`Executor::executeBlocking` path), direct filesystem removals, and
critical error dialogs.  Purely informational UI signals (`statusMsg`,
`lastDecrypt`, `startReencryptPath`, `endReencryptPath`) and debug
logging are not modelled.  Results of external processes (captured
output of gpg, resolved recipient lists, directory listings) are
supplied by an oracle environment `Env`, since they are produced by
code outside this component (gpg, git, `Pass::getRecipientList`,
`Executor`).
-/

namespace QtPass

/-! ### String helpers

QString operations used by imitatepass.cpp, modelled structurally over
the character list of a `String` so that every definition evaluates by
kernel reduction.
-/

/-- Split a character list at every character satisfying `p`, keeping
empty parts, exactly like `QString::split` with `KeepEmptyParts`. -/
def splitByPred (p : Char → Bool) : List Char → List (List Char)
  | [] => [[]]
  | c :: cs =>
    let r := splitByPred p cs
    if p c then [] :: r
    else
      match r with
      | [] => [[c]]
      | l :: ls => (c :: l) :: ls

/-- Model of `QString::split(sep)` for a one-character separator:
empty parts are kept. -/
def splitOnChar (sep : Char) (s : String) : List String :=
  (splitByPred (fun c => c == sep) s.data).map String.mk

/-- Model of `QString::startsWith` as used through
`QDir::relativeFilePath` below. -/
def strIsPre (pre s : String) : Bool :=
  decide (pre.data <+: s.data)

/-- Model of `path.replace(QRegExp("\\.gpg$"), "")`: strip one trailing
".gpg" when present. -/
def stripGpgSuffix (p : String) : String :=
  if decide (".gpg".data <:+ p.data) then String.mk (p.data.take (p.data.length - 4)) else p

/-- Model of `QDir(base).relativeFilePath(file)` for the only case the
component exercises: `file` lying beneath `base` (it is always built as
`base + rest`).  Outside that case the file name is returned unchanged. -/
def relativeFilePath (base file : String) : String :=
  if strIsPre base file then String.mk (file.data.drop base.data.length) else file

/-- Model of `QString::right(1)`: the last character, or the whole
(empty) string when there is none. -/
def strRight1 (s : String) : String :=
  String.mk (s.data.drop (s.data.length - 1))

/-- Lexicographic comparison of character lists, the order underlying
`QString::operator<` used by `QStringList::sort` (code points instead
of UTF-16 code units; the two agree on all identifiers involved). -/
def charListLe : List Char → List Char → Bool
  | [], _ => true
  | _ :: _, [] => false
  | a :: as, b :: bs => if a < b then true else if b < a then false else charListLe as bs

/-- String comparison used for sorting recipient lists. -/
def strLeB (a b : String) : Bool :=
  charListLe a.data b.data

/-- Stable insertion into a sorted list, the building block of the
model of `QStringList::sort`. -/
def insertQ (x : String) : List String → List String
  | [] => [x]
  | y :: ys => if strLeB x y then x :: y :: ys else y :: insertQ x ys

/-- Model of `QStringList::sort()`: a stable sort by the lexicographic
string order. -/
def sortQ : List String → List String
  | [] => []
  | x :: xs => insertQ x (sortQ xs)

/-- Boolean sortedness of a string list: every adjacent pair is in
order. -/
def headLe (x : String) : List String → Bool
  | [] => true
  | y :: _ => strLeB x y

/-- A list is sorted when each element is at most the following one. -/
def chainSorted : List String → Bool
  | [] => true
  | x :: xs => headLe x xs && chainSorted xs

/-! ### Recipient inspection parsing (reencryptPath, lines 266..286) -/

/-- One line of gpg inspection output, as processed by the loop body in
`reencryptPath`: the line is split on the single space character (empty
fields kept, `QString::split(" ")`), and when more than four fields
result and the field at index 4 is exactly 16 characters long, that
field is the extracted key identifier. -/
def lineKey (current : String) : Option String :=
  let cur := splitOnChar ' ' current
  if h : 4 < cur.length then
    let actualKey := cur.get ⟨4, h⟩
    if actualKey.length = 16 then some actualKey else none
  else none

/-- All key identifiers extracted from the combined stdout/stderr text
of the gpg inspection call: the text is split on newlines and each line
contributes its `lineKey`, if any. -/
def parseActualKeys (keys : String) : List String :=
  (splitOnChar '\n' keys).filterMap lineKey

/-- The actual recipient list of an entry as computed by
`reencryptPath`: parsed keys, sorted. -/
def actualKeysOf (keys : String) : List String :=
  sortQ (parseActualKeys keys)

/-! ### Data model -/

/-- An external command issued by the component.  `Executor::execute`
(reached through `executeWrapper`) is asynchronous and correlated by a
numeric job id; `Executor::executeBlocking` suspends the caller. -/
inductive Cmd where
  | blocking (app : String) (args : List String) (input : String)
  | async (id : Nat) (app : String) (args : List String) (input : String)
deriving DecidableEq

/-- Externally visible effects of the component: a spawned command, a
critical error dialog (`emit critical(title, message)`), or a direct
filesystem removal (the non-git branch of `Remove`). -/
inductive Event where
  | command (c : Cmd)
  | critical (title : String) (message : String)
  | fileRemove (path : String)
  | dirRemoveRecursive (path : String)
deriving DecidableEq

/-- Job-id constants from imitatepass.h (the header is not part of the
verified sources; the concrete values are immaterial, only which call
sites are asynchronous matters). -/
def GIT_INIT : Nat := 0

def GIT_ADD : Nat := 1

def GIT_COMMIT : Nat := 2

def GIT_RM : Nat := 3

def GIT_PULL : Nat := 4

def GIT_PUSH : Nat := 5

def PASS_SHOW : Nat := 6

def PASS_INSERT : Nat := 7

/-- The QtPassSettings values read by the component, threaded
explicitly. -/
structure Settings where
  passStore : String
  gpgExecutable : String
  gitExecutable : String
  autoPull : Bool
  autoPush : Bool
  useGit : Bool
  useWebDav : Bool
  addGPGId : Bool

/-- Oracle for everything produced outside imitatepass.cpp: captured
gpg output, resolved recipient declarations
(`Pass::getRecipientList`), and filesystem queries.  `decryptResult f`
is the value of the out-string after the blocking decrypt call on `f`
(it is preset to the sentinel "Could not decrypt" and overwritten with
the captured stdout). -/
structure Env where
  inspectOut : String → String
  inspectErr : String → String
  decryptResult : String → String
  recipients : String → List String
  fileIsPresent : String → Bool
  openWriteOk : String → Bool
  filesUnder : String → List String

/-- Argument list of the gpg inspection call (reencryptPath lines
267..269). -/
def inspectArgs (fileName : String) : List String :=
  ["-v", "--no-secmem-warning", "--no-permission-warning",
   "--list-only", "--keyid-format=long", fileName]

/-- Argument list of the gpg decrypt call, shared by `Show`, `Show_b`
and the walk. -/
def showArgs (file : String) : List String :=
  ["-d", "--quiet", "--yes", "--no-encrypt-to", "--batch", "--use-agent", file]

/-- The `-r <recipient>` argument pairs appended for each declared
recipient. -/
def recipientArgs (recipients : List String) : List String :=
  (recipients.map (fun r => ["-r", r])).flatten

/-- The normalization applied to a successfully decrypted plaintext in
the walk: ensure exactly one trailing newline is present at the end. -/
def normalizeNL (s : String) : String :=
  if strRight1 s ≠ "\n" then s ++ "\n" else s

/-- The critical error emitted when no recipient declaration resolves,
shared by `Insert` and the walk. -/
def missingGpgIdError : Event :=
  Event.critical "Can not edit"
    "Could not read encryption key to use, .gpg-id file missing or invalid."

/-! ### The re-encryption walk (reencryptPath, lines 248..341) -/

/-- The path of the default-constructed `QDir currentDir` in
`reencryptPath`.  The variable is never reassigned inside the loop, so
every comparison `gpgFiles.fileInfo().path() != currentDir.path()`
is against this constant. -/
def currentDirPath : String := "."

/-- Model of `QFileInfo::path()`: the directory part of a file name
(text before the last separator), "." when there is no separator, "/"
for a file at the root. -/
def dirOf (fileName : String) : String :=
  match (fileName.data.reverse).dropWhile (fun c => c ≠ '/') with
  | [] => "."
  | _ :: [] => "/"
  | _ :: rest => String.mk rest.reverse

/-- The declared recipient list carried into an iteration of the walk
loop: re-resolved (and sorted) when the directory of the current entry
differs from `currentDir.path()`, kept otherwise. -/
def nextGpgId (env : Env) (fileName : String) (gpgId : List String) : List String :=
  if dirOf fileName ≠ currentDirPath then sortQ (env.recipients fileName) else gpgId

/-- The body of the walk loop in `reencryptPath` for one entry, after
`gpgId` has been updated: returns the events produced for this entry
and whether the walk aborts (the `return` on an empty re-resolved
recipient list). -/
def processEntry (st : Settings) (env : Env) (fileName : String) (gpgId : List String) :
    List Event × Bool :=
  let inspectEv := Event.command (Cmd.blocking st.gpgExecutable (inspectArgs fileName) "")
  let actualKeys := actualKeysOf (env.inspectOut fileName ++ env.inspectErr fileName)
  if actualKeys ≠ gpgId then
    let decEv := Event.command (Cmd.blocking st.gpgExecutable (showArgs fileName) "")
    let local_lastDecrypt := env.decryptResult fileName
    if local_lastDecrypt ≠ "" ∧ local_lastDecrypt ≠ "Could not decrypt" then
      let plain := normalizeNL local_lastDecrypt
      let recipients := env.recipients fileName
      if recipients.isEmpty then
        ([inspectEv, decEv, missingGpgIdError], true)
      else
        let encEv := Event.command (Cmd.blocking st.gpgExecutable
          (["--yes", "--batch", "-eq", "--output", fileName] ++ recipientArgs recipients ++ ["-"])
          plain)
        let gitEvs :=
          if st.useWebDav = false ∧ st.useGit = true then
            [Event.command (Cmd.blocking st.gitExecutable ["add", fileName] ""),
             Event.command (Cmd.blocking st.gitExecutable
               ["commit", fileName, "-m",
                "Edit for " ++ stripGpgSuffix (relativeFilePath st.passStore fileName) ++
                  " using QtPass."] "")]
          else []
        ([inspectEv, decEv, encEv] ++ gitEvs, false)
    else
      ([inspectEv, decEv], false)
  else
    ([inspectEv], false)

/-- The walk over the discovered ciphertext files, threading the
loop-carried `gpgId` list; the Bool component records an abort. -/
def walkEntries (st : Settings) (env : Env) : List String → List String → List Event × Bool
  | [], _ => ([], false)
  | fileName :: rest, gpgId =>
    match processEntry st env fileName (nextGpgId env fileName gpgId) with
    | (evs, true) => (evs, true)
    | (evs, false) =>
      (evs ++ (walkEntries st env rest (nextGpgId env fileName gpgId)).1,
       (walkEntries st env rest (nextGpgId env fileName gpgId)).2)

/-- `ImitatePass::reencryptPath`: optional blocking pre-pull
(`GitPull_b`), the walk starting from an empty `gpgId`, and on normal
completion the optional post-push, which goes through the asynchronous
`GitPush` wrapper. -/
def reencryptPath (st : Settings) (env : Env) (dir : String) : List Event :=
  (if st.autoPull then [Event.command (Cmd.blocking st.gitExecutable ["pull"] "")] else []) ++
  (walkEntries st env (env.filesUnder dir) []).1 ++
  (if (walkEntries st env (env.filesUnder dir) []).2 = false ∧ st.autoPush = true then
    [Event.command (Cmd.async GIT_PUSH st.gitExecutable ["push"] "")]
   else [])

/-! ### Entry mutation (Insert, Remove, Init) -/

/-- `ImitatePass::Insert` (lines 96..126): encrypt a new value to
`store + file + ".gpg"` for the declared recipients, then stage (only
when not overwriting) and commit when git is active and WebDAV is not. -/
def Insert (st : Settings) (env : Env) (file0 newValue : String) (overwrite : Bool) :
    List Event :=
  let file := st.passStore ++ file0 ++ ".gpg"
  let recipients := env.recipients file
  if recipients.isEmpty then
    [missingGpgIdError]
  else
    let args := ["--batch", "-eq", "--output", file] ++ recipientArgs recipients ++
      (if overwrite then ["--yes"] else []) ++ ["-"]
    let encEv := Event.command (Cmd.async PASS_INSERT st.gpgExecutable args newValue)
    let gitEvs :=
      if st.useWebDav = false ∧ st.useGit = true then
        (if overwrite = false then
          [Event.command (Cmd.async GIT_ADD st.gitExecutable ["add", file] "")]
         else []) ++
        [Event.command (Cmd.async GIT_COMMIT st.gitExecutable
          ["commit", "-m",
           (if overwrite then "Edit" else "\"Add") ++ " for " ++
             stripGpgSuffix (relativeFilePath st.passStore file) ++ " using QtPass.",
           "--", file] "")]
      else []
    encEv :: gitEvs

/-- `ImitatePass::Remove` (lines 142..163): with git active, `git rm`
plus a commit whose message embeds the already-expanded full path;
otherwise a direct filesystem removal (the Qt 5 branch). -/
def Remove (st : Settings) (file0 : String) (isDir : Bool) : List Event :=
  let file := st.passStore ++ file0 ++ (if isDir then "" else ".gpg")
  if st.useGit then
    [Event.command (Cmd.async GIT_RM st.gitExecutable
      ["rm", (if isDir then "-rf" else "-f"), file] ""),
     Event.command (Cmd.async GIT_COMMIT st.gitExecutable
      ["commit", "-m", "Remove for " ++ file ++ " using QtPass.", "--", file] "")]
  else
    if isDir then [Event.dirRemoveRecursive file] else [Event.fileRemove file]

/-- One candidate recipient offered to `Init`. -/
structure UserInfo where
  key_id : String
  enabled : Bool
  have_secret : Bool

/-- The text listing the identifier of each enabled candidate, one per
line, in candidate order: the intended contents of the declaration
file written by `Init`. -/
def linesOf : List UserInfo → String
  | [] => ""
  | u :: us => if u.enabled then u.key_id ++ "\n" ++ linesOf us else linesOf us

/-- Result of `ImitatePass::Init`: the declaration file written (path
and contents), the events produced, and whether the re-encryption walk
was reached. -/
structure InitResult where
  written : Option (String × String)
  events : List Event
  reencrypted : Bool
deriving DecidableEq

/-- `ImitatePass::Init` (lines 172..212): write `path + ".gpg-id"`
listing every enabled candidate (one identifier per line), then abort
when no enabled candidate has a secret key, else optionally stage and
commit the declaration and re-encrypt the whole subtree. -/
def Init (st : Settings) (env : Env) (path : String) (users : List UserInfo) : InitResult :=
  let gpgIdFile := path ++ ".gpg-id"
  let addFile := st.addGPGId && !(env.fileIsPresent gpgIdFile)
  if env.openWriteOk gpgIdFile = false then
    ⟨none, [Event.critical "Cannot update" "Failed to open .gpg-id for writing."], false⟩
  else
    let contents := users.foldl
      (fun acc u => if u.enabled then acc ++ u.key_id ++ "\n" else acc) ""
    let secret_selected := users.foldl
      (fun acc u => if u.enabled then acc || u.have_secret else acc) false
    if secret_selected = false then
      ⟨some (gpgIdFile, contents),
       [Event.critical "Check selected users!"
         "None of the selected keys have a secret key available.\nYou will not be able to decrypt any newly added passwords!"],
       false⟩
    else
      let gitEvs :=
        if st.useWebDav = false ∧ st.useGit = true ∧ st.gitExecutable ≠ "" then
          (if addFile then
            [Event.command (Cmd.async GIT_ADD st.gitExecutable ["add", gpgIdFile] "")]
           else []) ++
          [Event.command (Cmd.async GIT_COMMIT st.gitExecutable
            ["commit", "-m", "Added " ++ stripGpgSuffix gpgIdFile ++ " using QtPass.",
             "--", gpgIdFile] "")]
        else []
      ⟨some (gpgIdFile, contents), gitEvs ++ reencryptPath st env path, true⟩

/-! ### Observation helpers for the theorems -/

/-- Is this event an asynchronous, job-id correlated command? -/
def isAsyncEvent : Event → Bool
  | Event.command (Cmd.async _ _ _ _) => true
  | _ => false

/-- Is this event an external command at all? -/
def isCommandEvent : Event → Bool
  | Event.command _ => true
  | _ => false

/-- The commit message inside an argument list, recognizing the two
commit shapes issued by the component: `commit -m <msg> -- <file>`
(`GitCommit`) and `commit <file> -m <msg>` (the walk). -/
def commitMsgOfArgs : List String → Option String
  | ["commit", "-m", m, "--", _] => some m
  | ["commit", _, "-m", m] => some m
  | _ => none

/-- The commit message of a command, when the command is a commit. -/
def commitMsgOfCmd : Cmd → Option String
  | Cmd.blocking _ args _ => commitMsgOfArgs args
  | Cmd.async _ _ args _ => commitMsgOfArgs args

/-- All commit messages appearing in a list of events, in order. -/
def commitMessages (evs : List Event) : List String :=
  evs.filterMap (fun e =>
    match e with
    | Event.command c => commitMsgOfCmd c
    | _ => none)

/-! ### Concrete fixtures used to evaluate the model -/

/-- A baseline configuration: git active, WebDAV inactive, no
auto-pull or auto-push. -/
def stStd : Settings :=
  { passStore := "/store/", gpgExecutable := "gpg", gitExecutable := "git",
    autoPull := false, autoPush := false, useGit := true, useWebDav := false,
    addGPGId := true }

/-- The baseline configuration with auto-push enabled. -/
def stPush : Settings :=
  { stStd with autoPush := true }

/-- A sixteen-character key identifier. -/
def keyA : String := "AAAAAAAAAAAAAAAA"

/-- Another sixteen-character key identifier. -/
def keyB : String := "BBBBBBBBBBBBBBBB"

/-- A ciphertext file inside the store. -/
def fileA : String := "/store/sub/alpha.gpg"

/-- A second ciphertext file in the same directory as `fileA`. -/
def fileB : String := "/store/sub/beta.gpg"

/-- A store in which each of the two entries is already encrypted for
its own declared recipient, but the two entries of the shared
directory declare different recipients (`fileA` resolves to `keyA`,
`fileB` to `keyB`). -/
def envDirBug : Env :=
  { inspectOut := fun f => if f = fileA then "a b c d " ++ keyA else "a b c d " ++ keyB,
    inspectErr := fun _ => "",
    decryptResult := fun _ => "plaintext",
    recipients := fun f => if f = fileA then [keyA] else [keyB],
    fileIsPresent := fun _ => false,
    openWriteOk := fun _ => true,
    filesUnder := fun _ => [fileA, fileB] }

/-- A drifted store: entries are encrypted for `keyA` while the
declaration resolves to `keyB`, and decryption succeeds. -/
def envDrift : Env :=
  { inspectOut := fun _ => "a b c d " ++ keyA,
    inspectErr := fun _ => "",
    decryptResult := fun _ => "secret",
    recipients := fun _ => [keyB],
    fileIsPresent := fun _ => false,
    openWriteOk := fun _ => true,
    filesUnder := fun _ => [fileA] }

/-- A drifted store on which decryption fails (the captured output is
empty). -/
def envFail : Env :=
  { envDrift with decryptResult := fun _ => "" }

/-- A drifted store whose recipient declaration does not resolve at
all. -/
def envNoDecl : Env :=
  { envDrift with recipients := fun _ => [] }

/-- An environment with no discoverable ciphertext files. -/
def envNoFiles : Env :=
  { envDrift with filesUnder := fun _ => [] }

/-- A line on which splitting on the single space character (keeping
empty fields) and splitting on whitespace (dropping empty fields)
disagree about the fifth field: the double space after "k" shifts the
space-split fields by one. -/
def exLine : String := "k  a b c 0123456789ABCDEF"

/-- Modelled from the spec: the whitespace-separated fields of a line
(the spec describes the recipient parse as splitting each line into
whitespace-separated fields, under which empty fragments between
consecutive separators are not fields).  Defined only to compare the
claimed parsing rule with the implemented one, which splits on the
single space character and keeps empty fields. -/
def whitespaceFieldsOf (s : String) : List String :=
  ((splitByPred Char.isWhitespace s.data).map String.mk).filter (fun t => t ≠ "")

/-! ### Helper lemmas -/

/-- The lexicographic comparison is total. -/
theorem charListLe_total (a : List Char) : ∀ b : List Char,
    charListLe a b = true ∨ charListLe b a = true := by
  induction a with
  | nil => intro b; left; rfl
  | cons c as ih =>
    intro b
    cases b with
    | nil => right; rfl
    | cons d bs =>
      by_cases h1 : c < d
      · left; simp [charListLe, h1]
      · by_cases h2 : d < c
        · right; simp [charListLe, h2]
        · rcases ih bs with h | h
          · left; simp [charListLe, h1, h2, h]
          · right; simp [charListLe, h1, h2, h]

/-- Totality of the string comparison, in the form needed below. -/
theorem strLeB_of_not (x y : String) (h : strLeB x y = false) : strLeB y x = true := by
  rcases charListLe_total x.data y.data with h1 | h1
  · have h2 : charListLe x.data y.data = false := h
    rw [h2] at h1
    simp at h1
  · exact h1

/-- Inserting a larger element keeps a head bound. -/
theorem headLe_insertQ (y x : String) (l : List String)
    (hyx : strLeB y x = true) (hl : headLe y l = true) :
    headLe y (insertQ x l) = true := by
  cases l with
  | nil => simp [insertQ, headLe, hyx]
  | cons z zs =>
    cases hxz : strLeB x z with
    | true => simpa [insertQ, hxz, headLe] using hyx
    | false => simpa [insertQ, hxz, headLe] using hl

/-- Insertion preserves sortedness. -/
theorem insertQ_chain (x : String) (l : List String) (h : chainSorted l = true) :
    chainSorted (insertQ x l) = true := by
  induction l with
  | nil => rfl
  | cons y ys ih =>
    simp only [chainSorted, Bool.and_eq_true] at h
    cases hxy : strLeB x y with
    | true =>
      have he : insertQ x (y :: ys) = x :: y :: ys := by simp [insertQ, hxy]
      rw [he]
      show (headLe x (y :: ys) && (headLe y ys && chainSorted ys)) = true
      simp only [Bool.and_eq_true]
      exact ⟨hxy, h.1, h.2⟩
    | false =>
      have he : insertQ x (y :: ys) = y :: insertQ x ys := by simp [insertQ, hxy]
      rw [he]
      show (headLe y (insertQ x ys) && chainSorted (insertQ x ys)) = true
      simp only [Bool.and_eq_true]
      exact ⟨headLe_insertQ y x ys (strLeB_of_not x y hxy) h.1, ih h.2⟩

/-- The model of `QStringList::sort` produces a sorted list. -/
theorem chainSorted_sortQ (l : List String) : chainSorted (sortQ l) = true := by
  induction l with
  | nil => rfl
  | cons x xs ih => exact insertQ_chain x (sortQ xs) ih

/-- String concatenation is associative. -/
theorem strAppend_assoc (a b c : String) : (a ++ b) ++ c = a ++ (b ++ c) :=
  congrArg String.mk (List.append_assoc a.data b.data c.data)

/-- Appending the empty string is the identity. -/
theorem strAppend_empty (a : String) : a ++ "" = a :=
  congrArg String.mk (List.append_nil a.data)

/-- `QDir::relativeFilePath` strips the base of a path built by
appending to the base. -/
theorem relativeFilePath_append (a b : String) : relativeFilePath a (a ++ b) = b := by
  have h : a.data <+: (a ++ b).data := List.prefix_append a.data b.data
  have h2 : strIsPre a (a ++ b) = true := by simp [strIsPre, h]
  show (if strIsPre a (a ++ b) then String.mk ((a ++ b).data.drop a.data.length) else a ++ b) = b
  rw [h2]
  show String.mk ((a.data ++ b.data).drop a.data.length) = b
  rw [List.drop_left]

/-- Stripping the ciphertext suffix undoes appending it. -/
theorem stripGpgSuffix_append (f : String) : stripGpgSuffix (f ++ ".gpg") = f := by
  have h : ".gpg".data <:+ (f ++ ".gpg").data := List.suffix_append f.data ".gpg".data
  show (if decide (".gpg".data <:+ (f ++ ".gpg").data) then
      String.mk ((f ++ ".gpg").data.take ((f ++ ".gpg").data.length - 4)) else f ++ ".gpg") = f
  rw [decide_eq_true h]
  show String.mk ((f.data ++ ".gpg".data).take ((f.data ++ ".gpg".data).length - 4)) = f
  have hl : (f.data ++ ".gpg".data).length - 4 = f.data.length := by
    simp [List.length_append]
  rw [hl, List.take_left]

/-- The contents written by `Init` are the enabled identifiers, one
per line, in order. -/
theorem init_contents_characterization (users : List UserInfo) (acc : String) :
    users.foldl (fun acc u => if u.enabled then acc ++ u.key_id ++ "\n" else acc) acc =
      acc ++ linesOf users := by
  induction users generalizing acc with
  | nil => exact (strAppend_empty acc).symm
  | cons u us ih =>
    cases hu : u.enabled with
    | false => simp [List.foldl, hu, ih, linesOf]
    | true =>
      simp only [List.foldl, hu, ite_true, linesOf]
      rw [ih]
      simp [strAppend_assoc]

/-- When no enabled user has a secret key, the `secret_selected`
accumulator of `Init` never becomes true. -/
theorem init_secret_fold_false (users : List UserInfo)
    (h : ∀ u ∈ users, u.enabled = true → u.have_secret = false) :
    users.foldl (fun acc u => if u.enabled then acc || u.have_secret else acc) false = false := by
  suffices h2 : ∀ acc : Bool,
      users.foldl (fun acc u => if u.enabled then acc || u.have_secret else acc) acc = acc by
    exact h2 false
  induction users with
  | nil => intro acc; rfl
  | cons u us ih =>
    intro acc
    have hu := h u (List.mem_cons_self u us)
    have hrest : ∀ v ∈ us, v.enabled = true → v.have_secret = false := by
      intro v hv; exact h v (List.mem_cons_of_mem u hv)
    cases he : u.enabled with
    | false => simpa [List.foldl, he] using ih hrest acc
    | true =>
      have : u.have_secret = false := hu he
      simpa [List.foldl, he, this] using ih hrest acc

/-- No event produced by the loop body of the walk is an asynchronous
command. -/
theorem processEntry_no_async (st : Settings) (env : Env) (f : String) (g : List String) :
    ((processEntry st env f g).1).all (fun e => !(isAsyncEvent e)) = true := by
  unfold processEntry
  by_cases h1 : actualKeysOf (env.inspectOut f ++ env.inspectErr f) ≠ g
  · by_cases h2 : env.decryptResult f ≠ "" ∧ env.decryptResult f ≠ "Could not decrypt"
    · by_cases h3 : (env.recipients f).isEmpty
      · simp [h1, h2, h3, isAsyncEvent, missingGpgIdError]
      · by_cases h4 : st.useWebDav = false ∧ st.useGit = true
        · simp [h1, h2, h3, h4, isAsyncEvent]
        · simp [h1, h2, h3, h4, isAsyncEvent]
    · simp [h1, h2, isAsyncEvent]
  · simp [h1, isAsyncEvent]

/-- No event produced by the whole walk is an asynchronous command. -/
theorem walkEntries_no_async (st : Settings) (env : Env) (files : List String) :
    ∀ g : List String, ((walkEntries st env files g).1).all (fun e => !(isAsyncEvent e)) = true := by
  induction files with
  | nil => intro g; rfl
  | cons f rest ih =>
    intro g
    have hp := processEntry_no_async st env f (nextGpgId env f g)
    show ((walkEntries st env (f :: rest) g).1).all (fun e => !(isAsyncEvent e)) = true
    rw [walkEntries]
    cases hpe : processEntry st env f (nextGpgId env f g) with
    | mk evs ab =>
      rw [hpe] at hp
      cases ab with
      | true => simpa using hp
      | false =>
        simp only [List.all_append, Bool.and_eq_true]
        exact ⟨hp, ih (nextGpgId env f g)⟩

/-! ### Claim theorems -/

/-- C1.  Drift correction: when the sorted actual recipient set of an
entry differs from the sorted declared recipient set, the walk body
(given a successful decrypt, a non-empty re-resolved declaration, and
active version control) decrypts the entry with the blocking gpg
decrypt call, re-encrypts the normalized plaintext to the same
ciphertext path with one `-r` argument pair per declared recipient,
and produces exactly one commit for the entry with message
"Edit for <store-relative path with ciphertext suffix stripped> using
QtPass.". -/
theorem reencrypt_drift_correction (st : Settings) (env : Env) (fileName : String)
    (hgit : st.useWebDav = false ∧ st.useGit = true)
    (hmm : actualKeysOf (env.inspectOut fileName ++ env.inspectErr fileName) ≠
      sortQ (env.recipients fileName))
    (hdec : env.decryptResult fileName ≠ "" ∧ env.decryptResult fileName ≠ "Could not decrypt")
    (hrec : env.recipients fileName ≠ []) :
    processEntry st env fileName (sortQ (env.recipients fileName)) =
      ([Event.command (Cmd.blocking st.gpgExecutable (inspectArgs fileName) ""),
        Event.command (Cmd.blocking st.gpgExecutable (showArgs fileName) ""),
        Event.command (Cmd.blocking st.gpgExecutable
          (["--yes", "--batch", "-eq", "--output", fileName] ++
            recipientArgs (env.recipients fileName) ++ ["-"])
          (normalizeNL (env.decryptResult fileName))),
        Event.command (Cmd.blocking st.gitExecutable ["add", fileName] ""),
        Event.command (Cmd.blocking st.gitExecutable
          ["commit", fileName, "-m",
           "Edit for " ++ stripGpgSuffix (relativeFilePath st.passStore fileName) ++
             " using QtPass."] "")], false) ∧
    commitMessages (processEntry st env fileName (sortQ (env.recipients fileName))).1 =
      ["Edit for " ++ stripGpgSuffix (relativeFilePath st.passStore fileName) ++
        " using QtPass."] := by
  have hne : (env.recipients fileName).isEmpty = false := by
    cases hrl : env.recipients fileName with
    | nil => exact absurd hrl hrec
    | cons a l => rfl
  have hmain : processEntry st env fileName (sortQ (env.recipients fileName)) =
      ([Event.command (Cmd.blocking st.gpgExecutable (inspectArgs fileName) ""),
        Event.command (Cmd.blocking st.gpgExecutable (showArgs fileName) ""),
        Event.command (Cmd.blocking st.gpgExecutable
          (["--yes", "--batch", "-eq", "--output", fileName] ++
            recipientArgs (env.recipients fileName) ++ ["-"])
          (normalizeNL (env.decryptResult fileName))),
        Event.command (Cmd.blocking st.gitExecutable ["add", fileName] ""),
        Event.command (Cmd.blocking st.gitExecutable
          ["commit", fileName, "-m",
           "Edit for " ++ stripGpgSuffix (relativeFilePath st.passStore fileName) ++
             " using QtPass."] "")], false) := by
    unfold processEntry
    simp [hmm, hdec, hne, hgit.1, hgit.2]
  refine ⟨hmain, ?_⟩
  rw [hmain]
  simp [commitMessages, commitMsgOfCmd, commitMsgOfArgs, inspectArgs, showArgs]

/-- C1 witness: the drift correction theorem evaluated on a concrete
drifted store. -/
theorem reencrypt_drift_correction_witness :
    processEntry stStd envDrift fileA (sortQ (envDrift.recipients fileA)) =
      ([Event.command (Cmd.blocking stStd.gpgExecutable (inspectArgs fileA) ""),
        Event.command (Cmd.blocking stStd.gpgExecutable (showArgs fileA) ""),
        Event.command (Cmd.blocking stStd.gpgExecutable
          (["--yes", "--batch", "-eq", "--output", fileA] ++
            recipientArgs (envDrift.recipients fileA) ++ ["-"])
          (normalizeNL (envDrift.decryptResult fileA))),
        Event.command (Cmd.blocking stStd.gitExecutable ["add", fileA] ""),
        Event.command (Cmd.blocking stStd.gitExecutable
          ["commit", fileA, "-m",
           "Edit for " ++ stripGpgSuffix (relativeFilePath stStd.passStore fileA) ++
             " using QtPass."] "")], false) ∧
    commitMessages (processEntry stStd envDrift fileA (sortQ (envDrift.recipients fileA))).1 =
      ["Edit for " ++ stripGpgSuffix (relativeFilePath stStd.passStore fileA) ++
        " using QtPass."] :=
  reencrypt_drift_correction stStd envDrift fileA ⟨rfl, rfl⟩ (by decide) (by decide) (by decide)

/-- C2.  Convergence idempotence: over a directory-resident file list
in which every entry has actual recipients equal to its sorted
declared recipients, the walk issues only the inspection command for
each entry, in order, and performs no decrypt, encrypt or commit and
no abort, for any incoming loop-carried declaration list. -/
theorem reencrypt_converged_walk_noop (st : Settings) (env : Env) (files g : List String)
    (hdir : ∀ f ∈ files, dirOf f ≠ currentDirPath)
    (hconv : ∀ f ∈ files,
      actualKeysOf (env.inspectOut f ++ env.inspectErr f) = sortQ (env.recipients f)) :
    walkEntries st env files g =
      (files.map (fun f => Event.command (Cmd.blocking st.gpgExecutable (inspectArgs f) "")),
       false) := by
  induction files generalizing g with
  | nil => rfl
  | cons f rest ih =>
    have hd : nextGpgId env f g = sortQ (env.recipients f) := by
      simp [nextGpgId, hdir f (List.mem_cons_self f rest)]
    have hc := hconv f (List.mem_cons_self f rest)
    have hpe : processEntry st env f (nextGpgId env f g) =
        ([Event.command (Cmd.blocking st.gpgExecutable (inspectArgs f) "")], false) := by
      rw [hd]
      unfold processEntry
      simp [hc]
    have ihr := ih (sortQ (env.recipients f))
      (fun x hx => hdir x (List.mem_cons_of_mem f hx))
      (fun x hx => hconv x (List.mem_cons_of_mem f hx))
    show (match processEntry st env f (nextGpgId env f g) with
      | (evs, true) => (evs, true)
      | (evs, false) =>
        (evs ++ (walkEntries st env rest (nextGpgId env f g)).1,
         (walkEntries st env rest (nextGpgId env f g)).2)) =
      ((f :: rest).map (fun x => Event.command (Cmd.blocking st.gpgExecutable (inspectArgs x) "")),
       false)
    rw [hpe, hd, ihr]
    rfl

/-- C2 witness: the no-op walk theorem evaluated on a concrete
converged two-entry store. -/
theorem reencrypt_converged_walk_noop_witness :
    walkEntries stStd envDirBug [fileA, fileB] [] =
      ([fileA, fileB].map
        (fun f => Event.command (Cmd.blocking stStd.gpgExecutable (inspectArgs f) "")),
       false) :=
  reencrypt_converged_walk_noop stStd envDirBug [fileA, fileB] [] (by decide) (by decide)

/-- C4.  Fault isolation: when decrypting a mismatched entry yields an
empty string or the sentinel "Could not decrypt", the walk emits only
the inspection and decrypt commands for that entry (its ciphertext is
untouched), does not abort, and processes the remaining entries
exactly as the walk over them. -/
theorem reencrypt_fault_isolation (st : Settings) (env : Env) (fileName : String)
    (rest g : List String)
    (hmm : actualKeysOf (env.inspectOut fileName ++ env.inspectErr fileName) ≠
      nextGpgId env fileName g)
    (hfail : env.decryptResult fileName = "" ∨ env.decryptResult fileName = "Could not decrypt") :
    walkEntries st env (fileName :: rest) g =
      ([Event.command (Cmd.blocking st.gpgExecutable (inspectArgs fileName) ""),
        Event.command (Cmd.blocking st.gpgExecutable (showArgs fileName) "")] ++
        (walkEntries st env rest (nextGpgId env fileName g)).1,
       (walkEntries st env rest (nextGpgId env fileName g)).2) := by
  have hnd : ¬(env.decryptResult fileName ≠ "" ∧
      env.decryptResult fileName ≠ "Could not decrypt") := by
    rcases hfail with h | h
    · intro hc; exact hc.1 h
    · intro hc; exact hc.2 h
  have hpe : processEntry st env fileName (nextGpgId env fileName g) =
      ([Event.command (Cmd.blocking st.gpgExecutable (inspectArgs fileName) ""),
        Event.command (Cmd.blocking st.gpgExecutable (showArgs fileName) "")], false) := by
    unfold processEntry
    simp [hmm, hnd]
  show (match processEntry st env fileName (nextGpgId env fileName g) with
    | (evs, true) => (evs, true)
    | (evs, false) =>
      (evs ++ (walkEntries st env rest (nextGpgId env fileName g)).1,
       (walkEntries st env rest (nextGpgId env fileName g)).2)) =
    ([Event.command (Cmd.blocking st.gpgExecutable (inspectArgs fileName) ""),
      Event.command (Cmd.blocking st.gpgExecutable (showArgs fileName) "")] ++
      (walkEntries st env rest (nextGpgId env fileName g)).1,
     (walkEntries st env rest (nextGpgId env fileName g)).2)
  rw [hpe]

/-- C4 witness: the fault isolation theorem evaluated with a failing
decrypt on the first of two entries; the second entry is still walked. -/
theorem reencrypt_fault_isolation_witness :
    walkEntries stStd envFail (fileA :: [fileB]) [] =
      ([Event.command (Cmd.blocking stStd.gpgExecutable (inspectArgs fileA) ""),
        Event.command (Cmd.blocking stStd.gpgExecutable (showArgs fileA) "")] ++
        (walkEntries stStd envFail [fileB] (nextGpgId envFail fileA [])).1,
       (walkEntries stStd envFail [fileB] (nextGpgId envFail fileA [])).2) :=
  reencrypt_fault_isolation stStd envFail fileA [fileB] [] (by decide) (by decide)

/-- C5.  Missing declaration aborts the walk: when a mismatched entry
decrypts successfully but the re-resolved declared recipient set is
empty, the walk stops at that entry with the critical error dialog,
re-encrypts nothing, and processes none of the remaining entries. -/
theorem reencrypt_missing_declaration_aborts (st : Settings) (env : Env) (fileName : String)
    (rest g : List String)
    (hmm : actualKeysOf (env.inspectOut fileName ++ env.inspectErr fileName) ≠
      nextGpgId env fileName g)
    (hdec : env.decryptResult fileName ≠ "" ∧ env.decryptResult fileName ≠ "Could not decrypt")
    (hrec : env.recipients fileName = []) :
    walkEntries st env (fileName :: rest) g =
      ([Event.command (Cmd.blocking st.gpgExecutable (inspectArgs fileName) ""),
        Event.command (Cmd.blocking st.gpgExecutable (showArgs fileName) ""),
        Event.critical "Can not edit"
          "Could not read encryption key to use, .gpg-id file missing or invalid."],
       true) := by
  have hpe : processEntry st env fileName (nextGpgId env fileName g) =
      ([Event.command (Cmd.blocking st.gpgExecutable (inspectArgs fileName) ""),
        Event.command (Cmd.blocking st.gpgExecutable (showArgs fileName) ""),
        missingGpgIdError], true) := by
    unfold processEntry
    simp [hmm, hdec, hrec]
  show (match processEntry st env fileName (nextGpgId env fileName g) with
    | (evs, true) => (evs, true)
    | (evs, false) =>
      (evs ++ (walkEntries st env rest (nextGpgId env fileName g)).1,
       (walkEntries st env rest (nextGpgId env fileName g)).2)) =
    ([Event.command (Cmd.blocking st.gpgExecutable (inspectArgs fileName) ""),
      Event.command (Cmd.blocking st.gpgExecutable (showArgs fileName) ""),
      Event.critical "Can not edit"
        "Could not read encryption key to use, .gpg-id file missing or invalid."],
     true)
  rw [hpe]
  rfl

/-- C5 witness: the abort theorem evaluated on a store whose
declaration does not resolve; the pending second entry is dropped. -/
theorem reencrypt_missing_declaration_aborts_witness :
    walkEntries stStd envNoDecl (fileA :: [fileB]) [] =
      ([Event.command (Cmd.blocking stStd.gpgExecutable (inspectArgs fileA) ""),
        Event.command (Cmd.blocking stStd.gpgExecutable (showArgs fileA) ""),
        Event.critical "Can not edit"
          "Could not read encryption key to use, .gpg-id file missing or invalid."],
       true) :=
  reencrypt_missing_declaration_aborts stStd envNoDecl fileA [fileB] [] (by decide) (by decide)
    (by decide)

/-- C3 counterexample: on `exLine` the claimed rule qualifies the line
(it has five whitespace-separated fields and the fifth one is the
sixteen-character identifier), yet the implemented parser extracts
nothing, because it splits on the single space character and counts
the empty field produced by the double space. -/
theorem parse_fifth_field_counterexample :
    lineKey exLine = none ∧
    4 < (whitespaceFieldsOf exLine).length ∧
    (whitespaceFieldsOf exLine).getD 4 "" = "0123456789ABCDEF" ∧
    ("0123456789ABCDEF" : String).length = 16 := by
  decide

/-- C3 amended: the parser extracts `k` from a line exactly when the
line, split on the single space character with empty fields kept, has
more than four fields and its field at index 4 is `k` of length
exactly 16; and the collected identifiers are sorted. -/
theorem parse_fifth_field_amended (text line k : String) :
    (lineKey line = some k ↔
      4 < (splitOnChar ' ' line).length ∧
      (splitOnChar ' ' line).getD 4 "" = k ∧ k.length = 16) ∧
    chainSorted (actualKeysOf text) = true := by
  refine ⟨?_, chainSorted_sortQ (parseActualKeys text)⟩
  simp only [lineKey]
  by_cases h : 4 < (splitOnChar ' ' line).length
  · have hg : (splitOnChar ' ' line).getD 4 "" = (splitOnChar ' ' line).get ⟨4, h⟩ :=
      List.getD_eq_getElem (splitOnChar ' ' line) "" h
    rw [hg]
    simp only [dif_pos h]
    by_cases h16 : ((splitOnChar ' ' line).get ⟨4, h⟩).length = 16
    · simp only [if_pos h16, Option.some.injEq]
      constructor
      · intro hk
        exact ⟨h, hk, hk ▸ h16⟩
      · intro hk
        exact hk.2.1
    · simp only [if_neg h16]
      constructor
      · intro hk
        exact absurd hk (by simp)
      · intro hk
        exact absurd (by rw [hk.2.1]; exact hk.2.2) h16
  · simp only [dif_neg h]
    constructor
    · intro hk
      exact absurd hk (by simp)
    · intro hk
      exact absurd hk.1 h

/-- C6 evaluation at the failing input: the two entries share one
directory, and the actual keys of the second entry differ from the
declaration resolved for the first one, so an engine that reused the
set loaded for the first entry of the run would treat the second entry
as drifted; the code instead re-resolves for every entry (the tracked
directory is never updated from the path of the default-constructed
QDir) and treats it as converged, issuing only the two inspection
commands. -/
theorem reencrypt_dir_reload_eval :
    walkEntries stStd envDirBug [fileA, fileB] [] =
      ([Event.command (Cmd.blocking stStd.gpgExecutable (inspectArgs fileA) ""),
        Event.command (Cmd.blocking stStd.gpgExecutable (inspectArgs fileB) "")], false) ∧
    dirOf fileB = dirOf fileA ∧
    dirOf fileA ≠ currentDirPath ∧
    actualKeysOf (envDirBug.inspectOut fileB ++ envDirBug.inspectErr fileB) ≠
      sortQ (envDirBug.recipients fileA) := by
  decide

/-- C7 counterexample: with auto-push enabled on an empty store, the
engine finishes the walk and then dispatches the push through the
asynchronous, job-id correlated wrapper, so not every command issued
by a re-encryption run is blocking. -/
theorem reencrypt_push_async_counterexample :
    reencryptPath stPush envNoFiles "/store/" =
      [Event.command (Cmd.async GIT_PUSH stPush.gitExecutable ["push"] "")] ∧
    (reencryptPath stPush envNoFiles "/store/").any isAsyncEvent = true := by
  decide

/-- C7 amended: every command issued by a re-encryption run is
blocking, except only the post-walk push, which is dispatched
asynchronously with the GIT_PUSH job id when auto-push is enabled. -/
theorem reencrypt_only_push_async (st : Settings) (env : Env) (dir : String) :
    ∀ e ∈ reencryptPath st env dir, isAsyncEvent e = true →
      e = Event.command (Cmd.async GIT_PUSH st.gitExecutable ["push"] "") := by
  intro e he ha
  unfold reencryptPath at he
  rcases List.mem_append.1 he with he1 | he2
  · rcases List.mem_append.1 he1 with hpre | hwalk
    · by_cases hap : st.autoPull = true
      · simp only [hap, ite_true, List.mem_singleton] at hpre
        rw [hpre] at ha
        exact absurd ha (by simp [isAsyncEvent])
      · simp [hap] at hpre
    · have hall := walkEntries_no_async st env (env.filesUnder dir) []
      rw [List.all_eq_true] at hall
      have hf := hall e hwalk
      rw [ha] at hf
      exact absurd hf (by simp)
  · by_cases hc : (walkEntries st env (env.filesUnder dir) []).2 = false ∧ st.autoPush = true
    · simp only [hc, and_self, ite_true, List.mem_singleton] at he2
      exact he2
    · simp [hc] at he2

/-- C7 witness: the amended theorem applied to the asynchronous push
actually produced by a concrete auto-push run. -/
theorem reencrypt_only_push_async_witness :
    Event.command (Cmd.async GIT_PUSH stPush.gitExecutable ["push"] "") =
      Event.command (Cmd.async GIT_PUSH stPush.gitExecutable ["push"] "") :=
  reencrypt_only_push_async stPush envNoFiles "/store/"
    (Event.command (Cmd.async GIT_PUSH stPush.gitExecutable ["push"] ""))
    (by decide) (by decide)

/-- C8.  Create with no recipients: when the declaration for the
target path resolves to nothing, `Insert` emits only the critical
error dialog — in particular it spawns no external process at all and
leaves the store untouched. -/
theorem insert_no_recipients_error (st : Settings) (env : Env) (file0 newValue : String)
    (overwrite : Bool)
    (h : env.recipients (st.passStore ++ file0 ++ ".gpg") = []) :
    Insert st env file0 newValue overwrite =
      [Event.critical "Can not edit"
        "Could not read encryption key to use, .gpg-id file missing or invalid."] ∧
    (Insert st env file0 newValue overwrite).filter isCommandEvent = [] := by
  have hi : Insert st env file0 newValue overwrite = [missingGpgIdError] := by
    unfold Insert
    simp [h]
  refine ⟨hi, ?_⟩
  rw [hi]
  rfl

/-- C8 witness: the empty-declaration theorem evaluated on the
concrete call Create("x", "secret", false). -/
theorem insert_no_recipients_error_witness :
    Insert stStd envNoDecl "x" "secret" false =
      [Event.critical "Can not edit"
        "Could not read encryption key to use, .gpg-id file missing or invalid."] ∧
    (Insert stStd envNoDecl "x" "secret" false).filter isCommandEvent = [] :=
  insert_no_recipients_error stStd envNoDecl "x" "secret" false (by decide)

/-- C9 counterexample: the commit created for a file deletion carries
the full absolute path with the ciphertext suffix still attached, not
the store-relative suffix-stripped path the claim describes. -/
theorem remove_commit_message_counterexample :
    commitMessages (Remove stStd "notes/x" false) =
      ["Remove for /store/notes/x.gpg using QtPass."] ∧
    ("Remove for /store/notes/x.gpg using QtPass." : String) ≠
      "Remove for notes/x using QtPass." := by
  decide

/-- C9 amended: the commit messages of the entry mutations follow the
literal templates with the store-relative, suffix-stripped path — a
stray leading quotation mark on create, "Edit for <path> using
QtPass." on overwrite and on re-encryption — except deletion, whose
message instead embeds the full absolute path, with the ciphertext
suffix kept for a file and nothing appended for a directory. -/
theorem commit_message_templates (st : Settings) (env : Env) (f v fileName : String)
    (g : List String)
    (hgit : st.useWebDav = false ∧ st.useGit = true)
    (hrecIns : (env.recipients (st.passStore ++ f ++ ".gpg")).isEmpty = false)
    (hmm : actualKeysOf (env.inspectOut fileName ++ env.inspectErr fileName) ≠ g)
    (hdec : env.decryptResult fileName ≠ "" ∧ env.decryptResult fileName ≠ "Could not decrypt")
    (hrecRe : (env.recipients fileName).isEmpty = false) :
    commitMessages (Insert st env f v false) = ["\"Add for " ++ f ++ " using QtPass."] ∧
    commitMessages (Insert st env f v true) = ["Edit for " ++ f ++ " using QtPass."] ∧
    commitMessages (processEntry st env fileName g).1 =
      ["Edit for " ++ stripGpgSuffix (relativeFilePath st.passStore fileName) ++
        " using QtPass."] ∧
    commitMessages (Remove st f false) =
      ["Remove for " ++ (st.passStore ++ f ++ ".gpg") ++ " using QtPass."] ∧
    commitMessages (Remove st f true) =
      ["Remove for " ++ (st.passStore ++ f) ++ " using QtPass."] := by
  have hpath : stripGpgSuffix (relativeFilePath st.passStore (st.passStore ++ f ++ ".gpg")) = f := by
    rw [strAppend_assoc, relativeFilePath_append]
    exact stripGpgSuffix_append f
  have lit1 : ("\"Add" : String) ++ " for " = "\"Add for " := by decide
  have lit2 : ("Edit" : String) ++ " for " = "Edit for " := by decide
  refine ⟨?_, ?_, ?_, ?_, ?_⟩
  · unfold Insert
    simp only [hrecIns, Bool.false_eq_true, ite_false, hgit.1, hgit.2, and_self, ite_true]
    simp [commitMessages, commitMsgOfCmd, commitMsgOfArgs, hpath, lit1]
  · unfold Insert
    simp only [hrecIns, Bool.false_eq_true, ite_false, hgit.1, hgit.2, and_self, ite_true]
    simp [commitMessages, commitMsgOfCmd, commitMsgOfArgs, hpath, lit2]
  · unfold processEntry
    simp only [hmm, ne_eq, not_false_iff, ite_true, hdec, and_self, hrecRe,
      Bool.false_eq_true, ite_false, hgit.1, hgit.2]
    simp [commitMessages, commitMsgOfCmd, commitMsgOfArgs, inspectArgs, showArgs]
  · unfold Remove
    simp only [hgit.2, ite_true, ite_false]
    simp [commitMessages, commitMsgOfCmd, commitMsgOfArgs]
  · unfold Remove
    simp only [hgit.2, ite_true]
    simp [commitMessages, commitMsgOfCmd, commitMsgOfArgs, strAppend_empty]

/-- C9 witness: the template theorem evaluated on a concrete store and
entry. -/
theorem commit_message_templates_witness :
    commitMessages (Insert stStd envDrift "sub/alpha" "v" false) =
      ["\"Add for " ++ "sub/alpha" ++ " using QtPass."] ∧
    commitMessages (Insert stStd envDrift "sub/alpha" "v" true) =
      ["Edit for " ++ "sub/alpha" ++ " using QtPass."] ∧
    commitMessages (processEntry stStd envDrift fileA [keyB]).1 =
      ["Edit for " ++ stripGpgSuffix (relativeFilePath stStd.passStore fileA) ++
        " using QtPass."] ∧
    commitMessages (Remove stStd "sub/alpha" false) =
      ["Remove for " ++ (stStd.passStore ++ "sub/alpha" ++ ".gpg") ++ " using QtPass."] ∧
    commitMessages (Remove stStd "sub/alpha" true) =
      ["Remove for " ++ (stStd.passStore ++ "sub/alpha") ++ " using QtPass."] :=
  commit_message_templates stStd envDrift "sub/alpha" "v" fileA [keyB] ⟨rfl, rfl⟩ (by decide)
    (by decide) (by decide) (by decide)

/-- C10.  Store initialization with no secret-capable recipient: the
declaration file is written first, listing the identifier of every
enabled candidate one per line; the operation then aborts with the
critical no-secret-key error before any commit or re-encryption, and
the written file is not rolled back. -/
theorem init_no_secret_dangling_write (st : Settings) (env : Env) (path : String)
    (users : List UserInfo)
    (hopen : env.openWriteOk (path ++ ".gpg-id") = true)
    (hnosec : ∀ u ∈ users, u.enabled = true → u.have_secret = false) :
    Init st env path users =
      { written := some (path ++ ".gpg-id", linesOf users),
        events := [Event.critical "Check selected users!"
          "None of the selected keys have a secret key available.\nYou will not be able to decrypt any newly added passwords!"],
        reencrypted := false } := by
  unfold Init
  rw [init_secret_fold_false users hnosec, init_contents_characterization users ""]
  simp [hopen]

/-- C10 witness: the initialization theorem evaluated with one enabled
candidate lacking a secret key and one disabled candidate owning one. -/
theorem init_no_secret_dangling_write_witness :
    Init stStd envDrift "/store/"
        [{ key_id := "K1", enabled := true, have_secret := false },
         { key_id := "K2", enabled := false, have_secret := true }] =
      { written := some ("/store/.gpg-id",
          linesOf [{ key_id := "K1", enabled := true, have_secret := false },
                   { key_id := "K2", enabled := false, have_secret := true }]),
        events := [Event.critical "Check selected users!"
          "None of the selected keys have a secret key available.\nYou will not be able to decrypt any newly added passwords!"],
        reencrypted := false } :=
  init_no_secret_dangling_write stStd envDrift "/store/"
    [{ key_id := "K1", enabled := true, have_secret := false },
     { key_id := "K2", enabled := false, have_secret := true }]
    (by decide) (by decide)

end QtPass
